import Mathlib

/-!
Verification of the bridge/broadcast layer of the `cli` repository
(`src/protocol.rs`, `src/main.rs`, `src/state.rs`).

JSON values are modelled as a mutual inductive over raw UTF-8 byte lists
(`List Nat`), mirroring `serde_json::Value` restricted to integer numbers
(floating-point payloads are outside the shallow embedding).  The wire is a
byte list; the frame codec, the state-store mutations of `handle_socket`,
and the HTTP handlers are translated function by function from the source.
-/

/-- UTF-8 bytes of an ASCII string literal (used only on ASCII constants
appearing in the Rust source). -/
def ascii (s : String) : List Nat := s.data.map Char.toNat

mutual

/-- `serde_json::Value`, with numbers restricted to integers and strings kept
as raw byte lists. -/
inductive Json where
  | null : Json
  | bool (b : Bool) : Json
  | num (i : Int) : Json
  | str (s : List Nat) : Json
  | arr (l : JsonList) : Json
  | obj (l : JsonObj) : Json

/-- The element list of a JSON array (`Vec<Value>`). -/
inductive JsonList where
  | nil : JsonList
  | cons (hd : Json) (tl : JsonList) : JsonList

/-- The field list of a JSON object (`Map<String, Value>`, in source order). -/
inductive JsonObj where
  | nil : JsonObj
  | cons (k : List Nat) (v : Json) (tl : JsonObj) : JsonObj

end

deriving instance DecidableEq for Json, JsonList, JsonObj

/-! ## Decimal digits (the `itoa` output that `serde_json` uses for integers) -/

/-- Decimal digit bytes of `n`, most significant first.  The extra `fuel`
argument keeps the recursion structural (it is always called with enough). -/
def natDigitsAux : Nat → Nat → List Nat
  | 0, _ => []
  | fuel + 1, n =>
    if n < 10 then [0x30 + n]
    else natDigitsAux fuel (n / 10) ++ [0x30 + n % 10]

/-- Decimal digit bytes of `n`, most significant first. -/
def natDigits (n : Nat) : List Nat := natDigitsAux (n + 1) n

/-- The bytes `serde_json` emits for an integer: optional minus sign, then
decimal digits. -/
def serializeInt (i : Int) : List Nat :=
  if i < 0 then 0x2D :: natDigits i.natAbs else natDigits i.natAbs

/-- Numeric value of a run of decimal digit bytes. -/
def digitsVal (ds : List Nat) : Nat :=
  ds.foldl (fun a b => a * 10 + (b - 0x30)) 0

/-! ## String escaping, as `serde_json`'s serializer does it

`serde_json` escapes `"` and `\`, uses the two-character escapes for the five
control characters that have one, and `\u00XX` (lowercase hex) for the other
control characters; everything else is emitted verbatim.  All escaped bytes are
ASCII, so working on raw bytes agrees with the char-level escaping for every
valid UTF-8 string. -/

/-- Lowercase hex digit byte for `n < 16`. -/
def hexDigit (n : Nat) : Nat := if n < 10 then 0x30 + n else 0x57 + n

/-- Value of a hex digit byte (either case), as `serde_json`'s `decode_hex_val`. -/
def hexVal (b : Nat) : Option Nat :=
  if 0x30 ≤ b ∧ b ≤ 0x39 then some (b - 0x30)
  else if 0x61 ≤ b ∧ b ≤ 0x66 then some (b - 0x61 + 10)
  else if 0x41 ≤ b ∧ b ≤ 0x46 then some (b - 0x41 + 10)
  else none

/-- Value of four hex digit bytes. -/
def hexVal4 (a b c d : Nat) : Option Nat :=
  match hexVal a, hexVal b, hexVal c, hexVal d with
  | some va, some vb, some vc, some vd => some (((va * 16 + vb) * 16 + vc) * 16 + vd)
  | _, _, _, _ => none

/-- UTF-8 encoding of a code point (used when the parser decodes `\uXXXX`). -/
def utf8Bytes (c : Nat) : List Nat :=
  if c < 0x80 then [c]
  else if c < 0x800 then [0xC0 + c / 64, 0x80 + c % 64]
  else if c < 0x10000 then [0xE0 + c / 4096, 0x80 + c / 64 % 64, 0x80 + c % 64]
  else [0xF0 + c / 262144, 0x80 + c / 4096 % 64, 0x80 + c / 64 % 64, 0x80 + c % 64]

/-- Escape one byte of a string body, exactly as `serde_json` does. -/
def escapeByte (b : Nat) : List Nat :=
  if b = 0x22 then [0x5C, 0x22]
  else if b = 0x5C then [0x5C, 0x5C]
  else if b = 0x08 then [0x5C, 0x62]
  else if b = 0x09 then [0x5C, 0x74]
  else if b = 0x0A then [0x5C, 0x6E]
  else if b = 0x0C then [0x5C, 0x66]
  else if b = 0x0D then [0x5C, 0x72]
  else if b < 0x20 then [0x5C, 0x75, 0x30, 0x30, hexDigit (b / 16), hexDigit (b % 16)]
  else [b]

/-- Escape a whole string body. -/
def escapeBytes : List Nat → List Nat
  | [] => []
  | b :: rest => escapeByte b ++ escapeBytes rest

/-! ## The serializer (`serde_json::to_string`, compact form) -/

mutual

/-- `serde_json::to_string` on a `Value`, as raw bytes. -/
def Json.serialize : Json → List Nat
  | .null => [0x6E, 0x75, 0x6C, 0x6C]
  | .bool true => [0x74, 0x72, 0x75, 0x65]
  | .bool false => [0x66, 0x61, 0x6C, 0x73, 0x65]
  | .num i => serializeInt i
  | .str s => 0x22 :: (escapeBytes s ++ [0x22])
  | .arr l => 0x5B :: (Json.serializeElems l ++ [0x5D])
  | .obj l => 0x7B :: (Json.serializeFields l ++ [0x7D])

/-- Comma-separated serialization of array elements. -/
def Json.serializeElems : JsonList → List Nat
  | .nil => []
  | .cons v .nil => v.serialize
  | .cons v (.cons w l) => v.serialize ++ (0x2C :: Json.serializeElems (.cons w l))

/-- Comma-separated serialization of object fields (`"key":value`). -/
def Json.serializeFields : JsonObj → List Nat
  | .nil => []
  | .cons k v .nil => 0x22 :: (escapeBytes k ++ (0x22 :: 0x3A :: v.serialize))
  | .cons k v (.cons k2 v2 l) =>
    (0x22 :: (escapeBytes k ++ (0x22 :: 0x3A :: v.serialize)))
      ++ (0x2C :: Json.serializeFields (.cons k2 v2 l))

end

/-! ## The parser (`serde_json::from_slice` on the integer-numeric fragment)

Recursive descent over the byte list.  The `fuel` argument makes the mutual
recursion structural; `fromSlice` passes enough fuel for any input.  Compared
with `serde_json`, number grammar is restricted to optionally-signed integer
literals (the floating-point forms are outside the embedding). -/

/-- JSON whitespace, as `serde_json` skips it. -/
def isWs (b : Nat) : Bool := b = 0x20 || b = 0x09 || b = 0x0A || b = 0x0D

/-- Drop leading whitespace bytes. -/
def skipWs : List Nat → List Nat
  | [] => []
  | b :: rest => if isWs b then skipWs rest else b :: rest

/-- Is `b` a decimal digit byte? -/
def isDigit (b : Nat) : Bool := 0x30 ≤ b && b ≤ 0x39

/-- Split off the longest run of decimal digit bytes. -/
def takeDigits : List Nat → List Nat × List Nat
  | [] => ([], [])
  | b :: rest =>
    if isDigit b then
      let p := takeDigits rest
      (b :: p.1, p.2)
    else ([], b :: rest)

/-- Parse an optionally-signed run of decimal digits into a number value. -/
def parseNumber (s : List Nat) : Option (Json × List Nat) :=
  match s with
  | [] => none
  | b :: rest =>
    if b = 0x2D then
      match takeDigits rest with
      | ([], _) => none
      | (ds, r) => some (.num (-(digitsVal ds : Int)), r)
    else
      match takeDigits (b :: rest) with
      | ([], _) => none
      | (ds, r) => some (.num ((digitsVal ds : Int)), r)

/-- Single-character escapes, as `serde_json`'s `parse_escape`. -/
def unescapeByte (e : Nat) : Option Nat :=
  if e = 0x22 then some 0x22
  else if e = 0x5C then some 0x5C
  else if e = 0x2F then some 0x2F
  else if e = 0x62 then some 0x08
  else if e = 0x66 then some 0x0C
  else if e = 0x6E then some 0x0A
  else if e = 0x72 then some 0x0D
  else if e = 0x74 then some 0x09
  else none

mutual

/-- Parse a string body after the opening quote: bytes up to the closing
quote, with `serde_json`'s escape handling (raw control bytes rejected). -/
def parseStringBody : List Nat → Option (List Nat × List Nat)
  | [] => none
  | b :: rest =>
    if b = 0x22 then some ([], rest)
    else if b = 0x5C then parseStringEsc rest
    else if b < 0x20 then none
    else
      match parseStringBody rest with
      | some (s, r) => some (b :: s, r)
      | none => none

/-- Continue a string body after a backslash. -/
def parseStringEsc : List Nat → Option (List Nat × List Nat)
  | [] => none
  | e :: rest2 =>
    if e = 0x75 then parseStringHex rest2
    else
      match unescapeByte e with
      | none => none
      | some ub =>
        match parseStringBody rest2 with
        | some (s, r) => some (ub :: s, r)
        | none => none

/-- Continue a string body after `\u`: four hex digits, then possibly the low
half of a surrogate pair (lone surrogates are rejected). -/
def parseStringHex : List Nat → Option (List Nat × List Nat)
  | h1 :: h2 :: h3 :: h4 :: rest3 =>
    (match hexVal4 h1 h2 h3 h4 with
     | none => none
     | some h =>
       if 0xD800 ≤ h ∧ h < 0xDC00 then parseStringLow h rest3
       else if 0xDC00 ≤ h ∧ h < 0xE000 then none
       else
         match parseStringBody rest3 with
         | some (s, r) => some (utf8Bytes h ++ s, r)
         | none => none)
  | _ => none

/-- Continue a string body after a high surrogate `\uXXXX`, expecting the low
half `\uYYYY` of the pair. -/
def parseStringLow (h : Nat) : List Nat → Option (List Nat × List Nat)
  | s1 :: s2 :: g1 :: g2 :: g3 :: g4 :: rest4 =>
    if s1 = 0x5C ∧ s2 = 0x75 then
      match hexVal4 g1 g2 g3 g4 with
      | none => none
      | some l =>
        if 0xDC00 ≤ l ∧ l < 0xE000 then
          match parseStringBody rest4 with
          | some (s, r) =>
            some (utf8Bytes (0x10000 + (h - 0xD800) * 0x400 + (l - 0xDC00)) ++ s, r)
          | none => none
        else none
    else none
  | _ => none

end

mutual

/-- Parse one JSON value (after skipping leading whitespace). -/
def parseValue : Nat → List Nat → Option (Json × List Nat)
  | 0, _ => none
  | fuel + 1, s =>
    match skipWs s with
    | [] => none
    | b :: rest =>
      if b = 0x6E then
        match rest with
        | 0x75 :: 0x6C :: 0x6C :: r => some (.null, r)
        | _ => none
      else if b = 0x74 then
        match rest with
        | 0x72 :: 0x75 :: 0x65 :: r => some (.bool true, r)
        | _ => none
      else if b = 0x66 then
        match rest with
        | 0x61 :: 0x6C :: 0x73 :: 0x65 :: r => some (.bool false, r)
        | _ => none
      else if b = 0x22 then
        match parseStringBody rest with
        | some (s2, r) => some (.str s2, r)
        | none => none
      else if b = 0x5B then
        match skipWs rest with
        | [] => none
        | c :: r2 =>
          if c = 0x5D then some (.arr .nil, r2)
          else
            match parseElems fuel (c :: r2) with
            | some (l, r) => some (.arr l, r)
            | none => none
      else if b = 0x7B then
        match skipWs rest with
        | [] => none
        | c :: r2 =>
          if c = 0x7D then some (.obj .nil, r2)
          else
            match parseFields fuel (c :: r2) with
            | some (l, r) => some (.obj l, r)
            | none => none
      else if b = 0x2D || isDigit b then parseNumber (b :: rest)
      else none

/-- Parse one-or-more comma-separated array elements and the closing bracket. -/
def parseElems : Nat → List Nat → Option (JsonList × List Nat)
  | 0, _ => none
  | fuel + 1, s =>
    match parseValue fuel s with
    | none => none
    | some (v, r) =>
      match skipWs r with
      | 0x2C :: r2 =>
        (match parseElems fuel r2 with
         | some (l, r3) => some (.cons v l, r3)
         | none => none)
      | 0x5D :: r2 => some (.cons v .nil, r2)
      | _ => none

/-- Parse one-or-more comma-separated object fields and the closing brace. -/
def parseFields : Nat → List Nat → Option (JsonObj × List Nat)
  | 0, _ => none
  | fuel + 1, s =>
    match skipWs s with
    | 0x22 :: r =>
      (match parseStringBody r with
       | none => none
       | some (k, r2) =>
         match skipWs r2 with
         | 0x3A :: r3 =>
           (match parseValue fuel r3 with
            | none => none
            | some (v, r4) =>
              match skipWs r4 with
              | 0x2C :: r5 =>
                (match parseFields fuel r5 with
                 | some (l, r6) => some (.cons k v l, r6)
                 | none => none)
              | 0x7D :: r5 => some (.cons k v .nil, r5)
              | _ => none)
         | _ => none)
    | _ => none

end

/-- `serde_json::from_slice::<Value>`: one value, then only trailing
whitespace. -/
def fromSlice (s : List Nat) : Option Json :=
  match parseValue (s.length + 1) s with
  | some (v, r) => if skipWs r = [] then some v else none
  | none => none

/-! ## Frame codec (`src/protocol.rs`)

The stream is a byte list; `read_exact` hitting end-of-stream is the
`ErrorKind::UnexpectedEof` case (`truncated` below), a JSON parse failure is
wrapped as `ErrorKind::InvalidData` (`malformed` below).  The length prefix is
native byte order on both sides of one machine; it is modelled little-endian
(x86-64) — the codec claims only need encode/decode to agree. -/

/-- The two error kinds `read_message` can produce. -/
inductive ReadErr where
  | truncated : ReadErr
  | malformed : ReadErr
deriving DecidableEq

/-- `u32::from_ne_bytes`. -/
def u32OfNeBytes (b0 b1 b2 b3 : Nat) : Nat :=
  b0 + 256 * b1 + 65536 * b2 + 16777216 * b3

/-- `u32::from_ne_bytes` on a 4-byte list (0 on any other shape). -/
def u32OfNeList : List Nat → Nat
  | [b0, b1, b2, b3] => u32OfNeBytes b0 b1 b2 b3
  | _ => 0

/-- `u32::to_ne_bytes`. -/
def u32ToNeBytes (n : Nat) : List Nat :=
  [n % 256, n / 256 % 256, n / 65536 % 256, n / 16777216 % 256]

/-- `protocol::read_message`: read a 4-byte length prefix, read exactly that
many body bytes, parse them as JSON. -/
def read_message (stream : List Nat) : Except ReadErr Json :=
  match stream with
  | b0 :: b1 :: b2 :: b3 :: rest =>
    if rest.length < u32OfNeBytes b0 b1 b2 b3 then .error .truncated
    else
      match fromSlice (rest.take (u32OfNeBytes b0 b1 b2 b3)) with
      | some v => .ok v
      | none => .error .malformed
  | _ => .error .truncated

/-- One writer-side effect of `write_message`. -/
inductive WEvent where
  | write (bytes : List Nat) : WEvent
  | flush : WEvent
deriving DecidableEq

/-- `protocol::write_message`: serialize, cast the byte length to `u32`
(truncating mod 2^32), write the prefix, write the body, flush. -/
def write_message (msg : Json) : List WEvent :=
  [.write (u32ToNeBytes (msg.serialize.length % 2 ^ 32)), .write msg.serialize, .flush]

/-- The bytes a peer reading the stream observes from a writer trace. -/
def writtenBytes : List WEvent → List Nat
  | [] => []
  | .write bs :: rest => bs ++ writtenBytes rest
  | .flush :: rest => writtenBytes rest

/-- The value carried by the length prefix of an encoded frame. -/
def frameLenVal (m : Json) : Nat :=
  match write_message m with
  | .write p :: _ => u32OfNeList p
  | _ => 0

/-! ## State store (`src/state.rs`) and the socket receive loop (`src/main.rs`) -/

/-- `state::TabInfo`. -/
structure TabInfo where
  id : Option Int
  url : Option (List Nat)
  title : Option (List Nat)
deriving DecidableEq

/-- Association-list lookup in an object, as `Value::get` on the parsed map
(first binding wins; parsed `serde_json` maps carry no duplicates). -/
def jlookup : JsonObj → List Nat → Option Json
  | .nil, _ => none
  | .cons k v tl, key => if k = key then some v else jlookup tl key

/-- `Value::get(key)`: `None` unless the value is an object with the key. -/
def jget (m : Json) (key : List Nat) : Option Json :=
  match m with
  | .obj l => jlookup l key
  | _ => none

/-- Field names of an object, in order. -/
def jKeysAux : JsonObj → List (List Nat)
  | .nil => []
  | .cons k _ tl => k :: jKeysAux tl

/-- The field names of an object value (empty for non-objects). -/
def jKeys (m : Json) : List (List Nat) :=
  match m with
  | .obj l => jKeysAux l
  | _ => []

/-- `msg.get("type").and_then(|t| t.as_str())`. -/
def getType (m : Json) : Option (List Nat) :=
  match jget m (ascii "type") with
  | some (.str s) => some s
  | _ => none

/-- Deserialization of one `TabInfo` field of Rust type `Option<i32>`:
missing and `null` give `None`, an in-range integer gives `Some`, anything
else fails the whole record. -/
def fieldOptI32 (l : JsonObj) (key : List Nat) : Option (Option Int) :=
  match jlookup l key with
  | none => some none
  | some .null => some none
  | some (.num i) => if -(2 ^ 31) ≤ i ∧ i < 2 ^ 31 then some (some i) else none
  | some _ => none

/-- Deserialization of one `TabInfo` field of Rust type `Option<String>`. -/
def fieldOptStr (l : JsonObj) (key : List Nat) : Option (Option (List Nat)) :=
  match jlookup l key with
  | none => some none
  | some .null => some none
  | some (.str s) => some (some s)
  | some _ => none

/-- `serde_json::from_value::<TabInfo>` (derived; unknown fields ignored). -/
def tabInfoFromJson (m : Json) : Option TabInfo :=
  match m with
  | .obj l =>
    match fieldOptI32 l (ascii "id"), fieldOptStr l (ascii "url"),
        fieldOptStr l (ascii "title") with
    | some i, some u, some t => some ⟨i, u, t⟩
    | _, _, _ => none
  | _ => none

/-- Elementwise `TabInfo` deserialization of an array. -/
def tabListFromJson : JsonList → Option (List TabInfo)
  | .nil => some []
  | .cons v tl =>
    match tabInfoFromJson v, tabListFromJson tl with
    | some t, some ts => some (t :: ts)
    | _, _ => none

/-- `serde_json::from_value::<Vec<TabInfo>>`: the value must be an array and
every element must deserialize. -/
def tabsFromJson (m : Json) : Option (List TabInfo) :=
  match m with
  | .arr l => tabListFromJson l
  | _ => none

/-- The two collections of `state::AppState` the receive loop mutates. -/
structure Store where
  tabs : List TabInfo
  results : List Json
deriving DecidableEq

/-- The result-history bound of `handle_socket`: push, then drop the oldest
entry if the length now exceeds 100. -/
def appendResult (results : List Json) (msg : Json) : List Json :=
  let r := results ++ [msg]
  if 100 < r.length then r.drop 1 else r

/-- One step of `handle_socket`'s receive loop on an already-parsed message:
`tabs` reports replace the tab list (ignored if the payload is missing or
fails to deserialize), the three `*_result` kinds append to the bounded
history, everything else is a no-op. -/
def handleMsg (st : Store) (msg : Json) : Store :=
  match getType msg with
  | none => st
  | some ty =>
    if ty = ascii "tabs" then
      match jget msg (ascii "tabs") with
      | none => st
      | some tv =>
        match tabsFromJson tv with
        | none => st
        | some ts => { st with tabs := ts }
    else if ty = ascii "injection_result" ∨ ty = ascii "html_result"
        ∨ ty = ascii "capture_result" then
      { st with results := appendResult st.results msg }
    else st

/-- One step of the receive loop on an inbound text frame: parse, then
dispatch; unparseable text is skipped. -/
def handleText (st : Store) (text : List Nat) : Store :=
  match fromSlice text with
  | none => st
  | some msg => handleMsg st msg

/-! ## The socket send loop and the broadcast bus (`src/main.rs`) -/

/-- One outcome of `rx.recv().await` on the broadcast receiver. -/
inductive BusRecv where
  | msg (m : Json) : BusRecv
  | lagged : BusRecv
  | closed : BusRecv
deriving DecidableEq

/-- `handle_socket`'s send task: forward each received bus message as a
serialized text frame; the `while let Ok` loop ends at the first non-`Ok`
receive.  Its output is exactly the frame sequence written to the socket. -/
def sendLoop : List BusRecv → List (List Nat)
  | [] => []
  | .msg m :: rest => m.serialize :: sendLoop rest
  | .lagged :: _ => []
  | .closed :: _ => []

/-- `tokio::sync::broadcast::Sender::send`: `Err` exactly when there is no
active receiver (the message is returned inside the error). -/
def busSend (receivers : Nat) (m : Json) : Except Json Nat :=
  if receivers = 0 then .error m else .ok receivers

/-- `state::InjectRequest`. -/
structure InjectRequest where
  tab_id : Json
  script : List Nat
deriving DecidableEq

/-- The command object `inject_handler` publishes. -/
def injectMsg (p : InjectRequest) : Json :=
  .obj (.cons (ascii "type") (.str (ascii "inject"))
    (.cons (ascii "tabId") p.tab_id
      (.cons (ascii "script") (.str p.script) .nil)))

/-- `main::inject_handler`: build the command, publish it discarding the send
result, answer with the acknowledgement object. -/
def inject_handler (p : InjectRequest) (receivers : Nat) : Json :=
  let _sent := busSend receivers (injectMsg p)
  .obj (.cons (ascii "status") (.str (ascii "sent")) .nil)

/-- The command object `navigate_handler` publishes: `tab_id` defaults to
`"active"`, `url` defaults to `"https://google.com"`. -/
def navigateMsg (payload : Json) : Json :=
  .obj (.cons (ascii "type") (.str (ascii "navigate"))
    (.cons (ascii "tabId") ((jget payload (ascii "tab_id")).getD (.str (ascii "active")))
      (.cons (ascii "url")
        ((jget payload (ascii "url")).getD (.str (ascii "https://google.com"))) .nil)))

/-- `main::navigate_handler`: build the command, publish it discarding the
send result, answer with the acknowledgement object. -/
def navigate_handler (payload : Json) (receivers : Nat) : Json :=
  let _sent := busSend receivers (navigateMsg payload)
  .obj (.cons (ascii "status") (.str (ascii "navigation_sent")) .nil)

/-! ## Concrete values used by the claims -/

/-- A `tabs` report carrying the given payload under the `tabs` key. -/
def tabsMsg (tv : Json) : Json :=
  .obj (.cons (ascii "type") (.str (ascii "tabs")) (.cons (ascii "tabs") tv .nil))

/-- The body the CLI `Click` subcommand posts to the `/navigate` endpoint
(`main.rs` line 216). -/
def clickBody : Json :=
  .obj (.cons (ascii "type") (.str (ascii "click"))
    (.cons (ascii "selector") (.str (ascii "#login"))
      (.cons (ascii "tab_id") (.str (ascii "active")) .nil)))

/-- `n` copies of a value as a JSON array element list. -/
def jreplicate (n : Nat) (v : Json) : JsonList :=
  match n with
  | 0 => .nil
  | k + 1 => .cons v (jreplicate k v)

/-- A JSON value whose serialization is longer than 2^32 bytes: an array of
2^32 nulls. -/
def hugeJson : Json := .arr (jreplicate (2 ^ 32) .null)

/-- A sample bus command, as published by the navigate endpoint. -/
def navCmd : Json := navigateMsg .null

/-- A sample inject request (the spec's end-to-end scenario input). -/
def sampleInject : InjectRequest := ⟨.num 5, ascii "alert(1)"⟩

/-- A `tabs` payload reporting the single tab `id 1`. -/
def tabReport1 : Json :=
  .arr (.cons (.obj (.cons (ascii "id") (.num 1)
    (.cons (ascii "url") (.str (ascii "u1"))
      (.cons (ascii "title") (.str (ascii "t1")) .nil)))) .nil)

/-- A `tabs` payload reporting the single tab `id 2`. -/
def tabReport2 : Json :=
  .arr (.cons (.obj (.cons (ascii "id") (.num 2)
    (.cons (ascii "url") (.str (ascii "u2"))
      (.cons (ascii "title") (.str (ascii "t2")) .nil)))) .nil)

/-! ## Shared helper lemmas -/

/-- Folding the result bound from any short-enough history keeps a sliding
window of the last 100 records. -/
theorem foldl_appendResult (l : List Json) :
    ∀ acc : List Json, acc.length ≤ 100 →
      List.foldl appendResult acc l = (acc ++ l).drop (acc.length + l.length - 100) := by
  induction l with
  | nil =>
    intro acc h
    have hz : acc.length - 100 = 0 := by omega
    simp [hz]
  | cons x t ih =>
    intro acc h
    simp only [List.foldl_cons]
    by_cases hlen : acc.length + 1 ≤ 100
    · have hA : appendResult acc x = acc ++ [x] := by
        unfold appendResult
        rw [if_neg (by simp; omega)]
      rw [hA, ih _ (by simp; omega)]
      have harith : (acc ++ [x]).length + t.length - 100 = acc.length + (x :: t).length - 100 := by
        simp; omega
      rw [harith]
      simp
    · have h100 : acc.length = 100 := by omega
      have hA : appendResult acc x = (acc ++ [x]).drop 1 := by
        unfold appendResult
        rw [if_pos (by simp; omega)]
      have hdlen : ((acc ++ [x]).drop 1).length = 100 := by simp [h100]
      rw [hA, ih _ (by rw [hdlen]), hdlen]
      have hc : 100 + t.length - 100 = t.length := by omega
      rw [hc]
      have hsplit : (acc ++ [x]).drop 1 ++ t = (acc ++ x :: t).drop 1 := by
        cases acc with
        | nil => simp at h100
        | cons a acc2 => simp
      rw [hsplit, List.drop_drop]
      have harith2 : 1 + t.length = acc.length + (x :: t).length - 100 := by
        simp [h100]
        omega
      rw [harith2]

/-- The tab-replacement step of the receive loop, for any payload that
deserializes. -/
theorem handleMsg_tabs (st : Store) (tv : Json) (ts : List TabInfo)
    (h : tabsFromJson tv = some ts) :
    handleMsg st (tabsMsg tv) = { st with tabs := ts } := by
  have hty : getType (tabsMsg tv) = some (ascii "tabs") := rfl
  have hget : jget (tabsMsg tv) (ascii "tabs") = some tv := by
    show jlookup _ _ = _
    rw [jlookup, if_neg (by decide), jlookup, if_pos rfl]
  simp [handleMsg, hty, hget, h]

/-! ## C2 — truncation vs. malformed distinction -/

/-- C2. `read_message` reports `truncated` whenever the stream ends inside
the 4-byte length prefix or inside the body, reports `malformed` whenever the
full body is present but is not valid JSON, and the two results are distinct
values. -/
theorem read_message_taxonomy :
    (∀ s : List Nat, s.length < 4 → read_message s = .error .truncated) ∧
    (∀ b0 b1 b2 b3 rest, rest.length < u32OfNeBytes b0 b1 b2 b3 →
      read_message (b0 :: b1 :: b2 :: b3 :: rest) = .error .truncated) ∧
    (∀ b0 b1 b2 b3 rest, u32OfNeBytes b0 b1 b2 b3 ≤ rest.length →
      fromSlice (rest.take (u32OfNeBytes b0 b1 b2 b3)) = none →
      read_message (b0 :: b1 :: b2 :: b3 :: rest) = .error .malformed) ∧
    ReadErr.truncated ≠ ReadErr.malformed := by
  refine ⟨?_, ?_, ?_, by decide⟩
  · intro s h
    match s with
    | [] => rfl
    | [_] => rfl
    | [_, _] => rfl
    | [_, _, _] => rfl
    | _ :: _ :: _ :: _ :: _ => simp at h; omega
  · intro b0 b1 b2 b3 rest h
    simp only [read_message]
    rw [if_pos h]
  · intro b0 b1 b2 b3 rest h hbad
    simp only [read_message]
    rw [if_neg (not_lt.mpr h), hbad]

/-- C2 witness: a stream that ends one byte into a declared 3-byte body is
reported truncated. -/
theorem read_message_taxonomy_witness :
    read_message [3, 0, 0, 0, 0x78] = .error .truncated :=
  read_message_taxonomy.2.1 3 0 0 0 [0x78] (by decide)

/-! ## C3 — bounded result ring -/

/-- C3. Each append keeps the history at 100 records or fewer, an append that
would exceed 100 drops the oldest record, and appending any 150 records to the
empty history leaves exactly the most recent 100 in arrival order. -/
theorem result_ring_bound :
    (∀ l : List Json, (List.foldl appendResult [] l).length ≤ 100) ∧
    (∀ (rs : List Json) (r : Json), rs.length ≤ 100 → (appendResult rs r).length ≤ 100) ∧
    (∀ (rs : List Json) (r : Json), 100 < rs.length + 1 →
      appendResult rs r = (rs ++ [r]).drop 1) ∧
    (∀ l : List Json, l.length = 150 → List.foldl appendResult [] l = l.drop 50) := by
  refine ⟨?_, ?_, ?_, ?_⟩
  · intro l
    rw [foldl_appendResult l [] (by simp)]
    simp
    omega
  · intro rs r h
    unfold appendResult
    by_cases hc : 100 < (rs ++ [r]).length
    · rw [if_pos hc]; simp; omega
    · rw [if_neg hc]; simp at hc ⊢; omega
  · intro rs r h
    unfold appendResult
    rw [if_pos (by simp; omega)]
  · intro l hl
    rw [foldl_appendResult l [] (by simp)]
    simp [hl]

/-- C3 witness: appending 150 concrete records to the empty history leaves
exactly the last 100 of them. -/
theorem result_ring_bound_witness :
    List.foldl appendResult [] (List.replicate 150 Json.null)
      = (List.replicate 150 Json.null).drop 50 :=
  result_ring_bound.2.2.2 (List.replicate 150 Json.null) (by simp)

/-! ## C4 — tab replacement semantics -/

/-- C4. A `tabs` report wholesale-replaces the stored tab list with the
reported one, and after processing a report with tab `id 1` and then one with
tab `id 2`, exactly the single tab `id 2` is readable. -/
theorem tabs_replace_semantics :
    (∀ (st : Store) (tv : Json) (ts : List TabInfo), tabsFromJson tv = some ts →
      handleMsg st (tabsMsg tv) = { st with tabs := ts }) ∧
    (handleMsg (handleMsg ⟨[], []⟩ (tabsMsg tabReport1)) (tabsMsg tabReport2)).tabs
      = [⟨some 2, some (ascii "u2"), some (ascii "t2")⟩] := by
  refine ⟨handleMsg_tabs, by decide⟩

/-- C4 witness: a concrete `tabs` report replaces a nonempty stored list with
the (empty) reported one. -/
theorem tabs_replace_semantics_witness :
    handleMsg ⟨[⟨some 9, none, none⟩], []⟩ (tabsMsg (.arr .nil)) = ⟨[], []⟩ :=
  tabs_replace_semantics.1 ⟨[⟨some 9, none, none⟩], []⟩ (.arr .nil) [] rfl

/-! ## C5 — what the send task emits on connect -/

/-- C5 (divergence witness).  The socket send task forwards exactly the bus
messages received after subscribing: it emits nothing when no bus traffic
arrives, never more frames than bus events, and its first frame is the first
bus message — there is no snapshot of store state sent ahead of live traffic
(the `AppState` of `state.rs` has no scripts collection at all). -/
theorem sendLoop_forwards_only :
    sendLoop [] = [] ∧
    (∀ evs : List BusRecv, (sendLoop evs).length ≤ evs.length) ∧
    sendLoop [.msg navCmd] = [navCmd.serialize] := by
  refine ⟨rfl, ?_, rfl⟩
  intro evs
  induction evs with
  | nil => simp [sendLoop]
  | cons e t ih =>
    cases e with
    | msg m => simp only [sendLoop, List.length_cons]; omega
    | lagged => simp [sendLoop]
    | closed => simp [sendLoop]

/-! ## C6 — inject endpoint acknowledgement -/

/-- C6 counterexample: at a concrete request with zero subscribers the
acknowledgement object carries no `target` field (it is exactly
`{"status":"sent"}`), refuting the claimed `{status, target}` shape. -/
theorem inject_ack_no_target :
    jget (inject_handler sampleInject 0) (ascii "target") = none ∧
    inject_handler sampleInject 0
      = .obj (.cons (ascii "status") (.str (ascii "sent")) .nil) :=
  ⟨rfl, rfl⟩

/-- C6 (amended). The inject endpoint answers the fixed acknowledgement
`{"status":"sent"}` for every request and every subscriber count — in
particular publishing to zero subscribers yields a send error that the
handler discards, still answering success — and the response involves no
peer interaction. -/
theorem inject_fire_and_forget :
    (∀ (p : InjectRequest) (n : Nat),
      inject_handler p n = .obj (.cons (ascii "status") (.str (ascii "sent")) .nil)) ∧
    (∀ p : InjectRequest, busSend 0 (injectMsg p) = .error (injectMsg p)) ∧
    (∀ (p : InjectRequest) (n : Nat), inject_handler p n = inject_handler p 0) :=
  ⟨fun _ _ => rfl, fun _ => rfl, fun _ _ => rfl⟩

/-! ## C7 — non-actionable inbound messages leave the store unchanged -/

/-- C7. The receive-loop step is total (the loop cannot crash on any parsed
message), and it leaves both store collections unchanged on: unparseable
text, a message without a string `type` field, a `type` outside the four
handled kinds, a `tabs` message without a `tabs` payload, and a `tabs`
message whose payload fails to deserialize as a tab list. -/
theorem nonactionable_no_state_change :
    (∀ (st : Store) (text : List Nat), fromSlice text = none → handleText st text = st) ∧
    (∀ (st : Store) (m : Json), getType m = none → handleMsg st m = st) ∧
    (∀ (st : Store) (m : Json) (ty : List Nat), getType m = some ty →
      ty ∉ [ascii "tabs", ascii "injection_result", ascii "html_result",
        ascii "capture_result"] →
      handleMsg st m = st) ∧
    (∀ (st : Store) (m : Json), getType m = some (ascii "tabs") →
      jget m (ascii "tabs") = none → handleMsg st m = st) ∧
    (∀ (st : Store) (m : Json) (tv : Json), getType m = some (ascii "tabs") →
      jget m (ascii "tabs") = some tv → tabsFromJson tv = none →
      handleMsg st m = st) := by
  refine ⟨?_, ?_, ?_, ?_, ?_⟩
  · intro st text h
    unfold handleText
    rw [h]
  · intro st m h
    unfold handleMsg
    rw [h]
  · intro st m ty hty hmem
    simp only [List.mem_cons, List.mem_singleton, not_or] at hmem
    obtain ⟨h1, h2, h3, h4⟩ := hmem
    simp [handleMsg, hty, h1, h2, h3, h4]
  · intro st m hty hget
    simp [handleMsg, hty, hget]
  · intro st m tv hty hget hbad
    simp [handleMsg, hty, hget, hbad]

/-- C7 witness: an `unknown_xyz`-typed frame leaves a nonempty store
untouched. -/
theorem nonactionable_no_state_change_witness :
    handleMsg ⟨[⟨some 1, none, none⟩], [Json.null]⟩
        (.obj (.cons (ascii "type") (.str (ascii "unknown_xyz")) .nil))
      = ⟨[⟨some 1, none, none⟩], [Json.null]⟩ :=
  nonactionable_no_state_change.2.2.1 ⟨[⟨some 1, none, none⟩], [Json.null]⟩
    (.obj (.cons (ascii "type") (.str (ascii "unknown_xyz")) .nil))
    (ascii "unknown_xyz") rfl (by decide)

/-! ## C8 — navigate endpoint field defaulting -/

/-- C8. The command the navigate endpoint publishes always has type
`"navigate"`; its `tabId` copies the body's `tab_id` and falls back to
`"active"` when absent; its `url` copies the body's `url` and falls back to
`"https://google.com"` when absent. -/
theorem navigate_field_defaults :
    ∀ p : Json,
      jget (navigateMsg p) (ascii "type") = some (.str (ascii "navigate")) ∧
      (∀ v, jget p (ascii "tab_id") = some v → jget (navigateMsg p) (ascii "tabId") = some v) ∧
      (jget p (ascii "tab_id") = none →
        jget (navigateMsg p) (ascii "tabId") = some (.str (ascii "active"))) ∧
      (∀ v, jget p (ascii "url") = some v → jget (navigateMsg p) (ascii "url") = some v) ∧
      (jget p (ascii "url") = none →
        jget (navigateMsg p) (ascii "url") = some (.str (ascii "https://google.com"))) := by
  intro p
  have htab : jget (navigateMsg p) (ascii "tabId")
      = some ((jget p (ascii "tab_id")).getD (.str (ascii "active"))) := by
    show jlookup _ _ = _
    rw [jlookup, if_neg (by decide), jlookup, if_pos rfl]
  have hurl : jget (navigateMsg p) (ascii "url")
      = some ((jget p (ascii "url")).getD (.str (ascii "https://google.com"))) := by
    show jlookup _ _ = _
    rw [jlookup, if_neg (by decide), jlookup, if_neg (by decide), jlookup, if_pos rfl]
  refine ⟨rfl, ?_, ?_, ?_, ?_⟩
  · intro v hv
    rw [htab, hv, Option.getD_some]
  · intro hv
    rw [htab, hv, Option.getD_none]
  · intro v hv
    rw [hurl, hv, Option.getD_some]
  · intro hv
    rw [hurl, hv, Option.getD_none]

/-- C8 witness: a `null` body (no `tab_id`, no `url`) gets both defaults. -/
theorem navigate_field_defaults_witness :
    jget (navigateMsg .null) (ascii "tabId") = some (.str (ascii "active")) ∧
    jget (navigateMsg .null) (ascii "url") = some (.str (ascii "https://google.com")) :=
  ⟨(navigate_field_defaults .null).2.2.1 rfl, (navigate_field_defaults .null).2.2.2.2 rfl⟩

/-! ## C10 — the navigate endpoint discards all other request fields -/

/-- C10. For every posted body the published message carries exactly the
fields `type`, `tabId`, `url` (its type being `"navigate"` and no `selector`
field existing); in particular the body the CLI Click subcommand posts —
carrying `type:"click"` and a `selector` — publishes a plain navigate command
with `tabId` `"active"` and the default url, the caller's `type` and
`selector` never reaching the bus. -/
theorem navigate_publishes_fixed_shape :
    (∀ p : Json,
      jKeys (navigateMsg p) = [ascii "type", ascii "tabId", ascii "url"] ∧
      jget (navigateMsg p) (ascii "selector") = none ∧
      jget (navigateMsg p) (ascii "type") = some (.str (ascii "navigate"))) ∧
    navigateMsg clickBody
      = .obj (.cons (ascii "type") (.str (ascii "navigate"))
          (.cons (ascii "tabId") (.str (ascii "active"))
            (.cons (ascii "url") (.str (ascii "https://google.com")) .nil))) := by
  refine ⟨fun p => ⟨rfl, ?_, rfl⟩, by decide⟩
  show jlookup _ _ = _
  rw [jlookup, if_neg (by decide), jlookup, if_neg (by decide), jlookup,
    if_neg (by decide), jlookup]

/-! ## Round-trip machinery: digits -/

/-- A remainder that cannot extend a digit run: empty or headed by a
non-digit.  Every serializer-produced continuation qualifies. -/
def numStop : List Nat → Bool
  | [] => true
  | b :: _ => !isDigit b

/-- With enough fuel, the digit expansion is sound: nonempty, all digit
bytes, and folding back recovers the number. -/
theorem natDigitsAux_spec :
    ∀ fuel n, n < fuel →
      natDigitsAux fuel n ≠ [] ∧
      (∀ b ∈ natDigitsAux fuel n, isDigit b = true) ∧
      digitsVal (natDigitsAux fuel n) = n := by
  intro fuel
  induction fuel with
  | zero => intro n h; omega
  | succ f ih =>
    intro n h
    by_cases h10 : n < 10
    · refine ⟨by simp [natDigitsAux, h10], ?_, ?_⟩
      · intro b hb
        simp [natDigitsAux, h10] at hb
        simp [hb, isDigit]
        omega
      · simp [natDigitsAux, h10, digitsVal]
    · have hrec := ih (n / 10) (by omega)
      obtain ⟨hne, hdig, hval⟩ := hrec
      refine ⟨by simp [natDigitsAux, h10], ?_, ?_⟩
      · intro b hb
        simp only [natDigitsAux, if_neg h10, List.mem_append, List.mem_singleton] at hb
        rcases hb with hb | hb
        · exact hdig b hb
        · simp [hb, isDigit]
          omega
      · simp only [natDigitsAux, if_neg h10, digitsVal, List.foldl_append, List.foldl_cons,
          List.foldl_nil]
        have : (natDigitsAux f (n / 10)).foldl (fun a b => a * 10 + (b - 0x30)) 0 = n / 10 :=
          hval
        rw [this]
        omega

/-- `natDigits n` is a nonempty run of digit bytes evaluating back to `n`. -/
theorem natDigits_spec (n : Nat) :
    natDigits n ≠ [] ∧ (∀ b ∈ natDigits n, isDigit b = true) ∧
      digitsVal (natDigits n) = n :=
  natDigitsAux_spec (n + 1) n (by omega)

/-- `takeDigits` does not move past a non-digit head (or the end). -/
theorem takeDigits_stop (rest : List Nat) (h : numStop rest = true) :
    takeDigits rest = ([], rest) := by
  cases rest with
  | nil => rfl
  | cons b t =>
    simp only [numStop, Bool.not_eq_true'] at h
    simp [takeDigits, h]

/-- `takeDigits` consumes exactly a leading digit run. -/
theorem takeDigits_run (ds : List Nat) (hds : ∀ b ∈ ds, isDigit b = true)
    (rest : List Nat) (hrest : numStop rest = true) :
    takeDigits (ds ++ rest) = (ds, rest) := by
  induction ds with
  | nil => simpa using takeDigits_stop rest hrest
  | cons d t ih =>
    have hd : isDigit d = true := hds d (by simp)
    have ht := ih (fun b hb => hds b (by simp [hb]))
    simp [takeDigits, hd, ht]

/-- Digit bytes are in the decimal range. -/
theorem isDigit_bounds {b : Nat} (h : isDigit b = true) : 0x30 ≤ b ∧ b ≤ 0x39 := by
  simp [isDigit] at h
  omega

/-- The number round-trip: parsing a serialized integer recovers it whenever
the remainder cannot extend the digit run. -/
theorem parseNumber_serializeInt (i : Int) (rest : List Nat) (h : numStop rest = true) :
    parseNumber (serializeInt i ++ rest) = some (.num i, rest) := by
  obtain ⟨hne, hdig, hval⟩ := natDigits_spec i.natAbs
  obtain ⟨d, ds, hshape⟩ : ∃ d ds, natDigits i.natAbs = d :: ds := by
    cases hc : natDigits i.natAbs with
    | nil => exact absurd hc hne
    | cons d ds => exact ⟨d, ds, rfl⟩
  have hrun := takeDigits_run (natDigits i.natAbs) hdig rest h
  by_cases hneg : i < 0
  · have hser : serializeInt i ++ rest = 0x2D :: (natDigits i.natAbs ++ rest) := by
      simp [serializeInt, hneg]
    rw [hser]
    simp only [parseNumber, if_pos rfl]
    have hrun2 : takeDigits (natDigits i.natAbs ++ rest) = (d :: ds, rest) := by
      rw [hrun, hshape]
    rw [hrun2]
    have : -((digitsVal (d :: ds) : Nat) : Int) = i := by
      rw [← hshape, hval]
      omega
    simp [this]
  · have hdd : isDigit d = true := hdig d (by rw [hshape]; simp)
    have hdb := isDigit_bounds hdd
    have hser : serializeInt i ++ rest = d :: (ds ++ rest) := by
      simp [serializeInt, hneg, hshape]
    rw [hser]
    have hrun2 : takeDigits (d :: (ds ++ rest)) = (d :: ds, rest) := by
      have : d :: (ds ++ rest) = (d :: ds) ++ rest := by simp
      rw [this, ← hshape]
      exact hrun
    simp only [parseNumber, if_neg (by omega : ¬ d = 0x2D), hrun2]
    have : ((digitsVal (d :: ds) : Nat) : Int) = i := by
      rw [← hshape, hval]
      omega
    simp [this]

/-! ## Round-trip machinery: strings -/

/-- The lowercase hex digit byte decodes back to its value. -/
theorem hexVal_hexDigit (k : Nat) (h : k < 16) : hexVal (hexDigit k) = some k := by
  unfold hexVal hexDigit
  by_cases h10 : k < 10
  · rw [if_pos h10, if_pos (by omega)]
    simp only [Option.some.injEq]
    omega
  · rw [if_neg h10, if_neg (by omega), if_pos (by omega)]
    simp only [Option.some.injEq]
    omega

/-- Parsing an escaped string body undoes the escaping and stops at the
closing quote. -/
theorem parseStringBody_escape :
    ∀ s rest : List Nat, parseStringBody (escapeBytes s ++ (0x22 :: rest)) = some (s, rest) := by
  intro s
  induction s with
  | nil =>
    intro rest
    simp [escapeBytes, parseStringBody]
  | cons b t ih =>
    intro rest
    have hstep : escapeBytes (b :: t) ++ (0x22 :: rest)
        = escapeByte b ++ (escapeBytes t ++ (0x22 :: rest)) := by
      simp [escapeBytes]
    rw [hstep]
    by_cases h1 : b = 0x22
    · have he : escapeByte b = [0x5C, 0x22] := by rw [h1]; decide
      rw [he, h1]
      simp [parseStringBody, parseStringEsc, unescapeByte, ih]
    · by_cases h2 : b = 0x5C
      · have he : escapeByte b = [0x5C, 0x5C] := by rw [h2]; decide
        rw [he, h2]
        simp [parseStringBody, parseStringEsc, unescapeByte, ih]
      · by_cases h3 : b = 0x08
        · have he : escapeByte b = [0x5C, 0x62] := by rw [h3]; decide
          rw [he, h3]
          simp [parseStringBody, parseStringEsc, unescapeByte, ih]
        · by_cases h4 : b = 0x09
          · have he : escapeByte b = [0x5C, 0x74] := by rw [h4]; decide
            rw [he, h4]
            simp [parseStringBody, parseStringEsc, unescapeByte, ih]
          · by_cases h5 : b = 0x0A
            · have he : escapeByte b = [0x5C, 0x6E] := by rw [h5]; decide
              rw [he, h5]
              simp [parseStringBody, parseStringEsc, unescapeByte, ih]
            · by_cases h6 : b = 0x0C
              · have he : escapeByte b = [0x5C, 0x66] := by rw [h6]; decide
                rw [he, h6]
                simp [parseStringBody, parseStringEsc, unescapeByte, ih]
              · by_cases h7 : b = 0x0D
                · have he : escapeByte b = [0x5C, 0x72] := by rw [h7]; decide
                  rw [he, h7]
                  simp [parseStringBody, parseStringEsc, unescapeByte, ih]
                · by_cases h8 : b < 0x20
                  · have he : escapeByte b
                        = [0x5C, 0x75, 0x30, 0x30, hexDigit (b / 16), hexDigit (b % 16)] := by
                      unfold escapeByte
                      rw [if_neg h1, if_neg h2, if_neg h3, if_neg h4, if_neg h5, if_neg h6,
                        if_neg h7, if_pos h8]
                    rw [he]
                    have hx : hexVal4 0x30 0x30 (hexDigit (b / 16)) (hexDigit (b % 16))
                        = some b := by
                      unfold hexVal4
                      rw [hexVal_hexDigit (b / 16) (by omega), hexVal_hexDigit (b % 16) (by omega)]
                      simp [hexVal]
                      omega
                    have hu : utf8Bytes b = [b] := by
                      unfold utf8Bytes
                      rw [if_pos (by omega)]
                    have hs1 : ¬(0xD800 ≤ b ∧ b < 0xDC00) := by omega
                    have hs2 : ¬(0xDC00 ≤ b ∧ b < 0xE000) := by omega
                    simp [parseStringBody, parseStringEsc, parseStringHex, hx, hu, hs1, hs2, ih]
                  · have he : escapeByte b = [b] := by
                      unfold escapeByte
                      rw [if_neg h1, if_neg h2, if_neg h3, if_neg h4, if_neg h5, if_neg h6,
                        if_neg h7, if_neg h8]
                    rw [he]
                    simp [parseStringBody, h1, h2, h8, ih]

/-! ## Round-trip machinery: structure -/

/-- `skipWs` is inert on a list headed by a non-whitespace byte. -/
theorem skipWs_not_ws (b : Nat) (l : List Nat) (h : isWs b = false) :
    skipWs (b :: l) = b :: l := by
  simp [skipWs, h]

/-- Every serialized value starts with a byte that is neither whitespace nor
a closing bracket. -/
theorem serialize_head (v : Json) :
    ∃ b t, v.serialize = b :: t ∧ isWs b = false ∧ b ≠ 0x5D := by
  cases v with
  | null => exact ⟨0x6E, _, rfl, by decide, by decide⟩
  | bool bb =>
    cases bb with
    | true => exact ⟨0x74, _, rfl, by decide, by decide⟩
    | false => exact ⟨0x66, _, rfl, by decide, by decide⟩
  | str s => exact ⟨0x22, _, rfl, by decide, by decide⟩
  | arr l => exact ⟨0x5B, _, rfl, by decide, by decide⟩
  | obj l => exact ⟨0x7B, _, rfl, by decide, by decide⟩
  | num i =>
    by_cases hneg : i < 0
    · refine ⟨0x2D, natDigits i.natAbs, ?_, by decide, by decide⟩
      simp [Json.serialize, serializeInt, hneg]
    · obtain ⟨hne, hdig, -⟩ := natDigits_spec i.natAbs
      obtain ⟨d, ds, hshape⟩ : ∃ d ds, natDigits i.natAbs = d :: ds := by
        cases hc : natDigits i.natAbs with
        | nil => exact absurd hc hne
        | cons d ds => exact ⟨d, ds, rfl⟩
      have hdb := isDigit_bounds (hdig d (by rw [hshape]; simp))
      refine ⟨d, ds, ?_, ?_, by omega⟩
      · simp [Json.serialize, serializeInt, hneg, hshape]
      · simp [isWs]
        omega

/-! ## Structural size: the fuel needed by the parser -/

mutual

/-- Node count of a value (the parser consumes one fuel unit per node). -/
def jsize : Json → Nat
  | .null => 1
  | .bool _ => 1
  | .num _ => 1
  | .str _ => 1
  | .arr l => 1 + jsizeL l
  | .obj l => 1 + jsizeF l

/-- Size of an array element list. -/
def jsizeL : JsonList → Nat
  | .nil => 1
  | .cons v l => jsize v + jsizeL l

/-- Size of an object field list. -/
def jsizeF : JsonObj → Nat
  | .nil => 1
  | .cons _ v l => jsize v + jsizeF l

end

/-- Values have positive size. -/
theorem jsize_pos (m : Json) : 1 ≤ jsize m := by
  cases m <;> simp [jsize]

/-- Element lists have positive size. -/
theorem jsizeL_pos (l : JsonList) : 1 ≤ jsizeL l := by
  cases l with
  | nil => simp [jsizeL]
  | cons v l2 =>
    have := jsize_pos v
    simp [jsizeL]
    omega

/-- Field lists have positive size. -/
theorem jsizeF_pos (l : JsonObj) : 1 ≤ jsizeF l := by
  cases l with
  | nil => simp [jsizeF]
  | cons k v l2 =>
    have := jsize_pos v
    simp [jsizeF]
    omega

mutual

/-- The size of a value is at most its serialized length. -/
theorem jsize_le_len : ∀ m : Json, jsize m ≤ m.serialize.length
  | .null => by simp [jsize, Json.serialize]
  | .bool b => by cases b <;> simp [jsize, Json.serialize]
  | .num i => by
    obtain ⟨hne, -, -⟩ := natDigits_spec i.natAbs
    simp only [jsize, Json.serialize, serializeInt]
    by_cases hneg : i < 0
    · rw [if_pos hneg]
      simp
    · rw [if_neg hneg]
      cases hc : natDigits i.natAbs with
      | nil => exact absurd hc hne
      | cons d ds => simp
  | .str s => by simp [jsize, Json.serialize]
  | .arr l => by
    have h := jsizeL_le_len l
    simp only [jsize, Json.serialize, List.length_cons, List.length_append,
      List.length_singleton]
    omega
  | .obj l => by
    have h := jsizeF_le_len l
    simp only [jsize, Json.serialize, List.length_cons, List.length_append,
      List.length_singleton]
    omega

/-- The size of an element list is within one of its serialized length. -/
theorem jsizeL_le_len : ∀ l : JsonList, jsizeL l ≤ (Json.serializeElems l).length + 1
  | .nil => by simp [jsizeL, Json.serializeElems]
  | .cons v .nil => by
    have h := jsize_le_len v
    simp only [jsizeL, Json.serializeElems]
    omega
  | .cons v (.cons w l2) => by
    have h1 := jsize_le_len v
    have h2 := jsizeL_le_len (.cons w l2)
    simp only [jsizeL] at h2
    simp only [jsizeL, Json.serializeElems, List.length_append, List.length_cons]
    omega

/-- The size of a field list is within one of its serialized length. -/
theorem jsizeF_le_len : ∀ l : JsonObj, jsizeF l ≤ (Json.serializeFields l).length + 1
  | .nil => by simp [jsizeF, Json.serializeFields]
  | .cons k v .nil => by
    have h := jsize_le_len v
    simp only [jsizeF, Json.serializeFields, List.length_append, List.length_cons]
    omega
  | .cons k v (.cons k2 v2 l2) => by
    have h1 := jsize_le_len v
    have h2 := jsizeF_le_len (.cons k2 v2 l2)
    simp only [jsizeF] at h2
    simp only [jsizeF, Json.serializeFields, List.length_append, List.length_cons]
    omega

end

/-- A value whose serialization starts like a number parses through
`parseNumber` back to itself. -/
theorem parseValue_num (f : Nat) (i : Int) (rest : List Nat) (h : numStop rest = true) :
    parseValue (f + 1) (serializeInt i ++ rest) = some (.num i, rest) := by
  have hnum := parseNumber_serializeInt i rest h
  by_cases hneg : i < 0
  · have hser : serializeInt i ++ rest = 0x2D :: (natDigits i.natAbs ++ rest) := by
      simp [serializeInt, hneg]
    rw [hser] at hnum ⊢
    simp [parseValue, skipWs, isWs, hnum]
  · obtain ⟨hne, hdig, -⟩ := natDigits_spec i.natAbs
    obtain ⟨d, ds, hshape⟩ : ∃ d ds, natDigits i.natAbs = d :: ds := by
      cases hc : natDigits i.natAbs with
      | nil => exact absurd hc hne
      | cons d ds => exact ⟨d, ds, rfl⟩
    have hdb := isDigit_bounds (hdig d (by rw [hshape]; simp))
    have hser : serializeInt i ++ rest = d :: (ds ++ rest) := by
      simp [serializeInt, hneg, hshape]
    rw [hser] at hnum ⊢
    have hws : isWs d = false := by simp [isWs]; omega
    have c1 : ¬ d = 0x6E := by omega
    have c2 : ¬ d = 0x74 := by omega
    have c3 : ¬ d = 0x66 := by omega
    have c4 : ¬ d = 0x22 := by omega
    have c5 : ¬ d = 0x5B := by omega
    have c6 : ¬ d = 0x7B := by omega
    have clast : (decide (d = 0x2D) || isDigit d) = true := by
      simp [isDigit]
      omega
    simp [parseValue, skipWs, hws, c1, c2, c3, c4, c5, c6, clast, hnum]

set_option maxHeartbeats 2000000 in
/-- The parser round-trip, by induction on fuel: with fuel at least the node
count, a serialized value (element list, field list) parses back to itself,
leaving exactly the remainder. -/
theorem parse_rt : ∀ fuel : Nat,
    (∀ (m : Json) (rest : List Nat), jsize m ≤ fuel → numStop rest = true →
      parseValue fuel (m.serialize ++ rest) = some (m, rest)) ∧
    (∀ (l : JsonList) (rest : List Nat), l ≠ .nil → jsizeL l ≤ fuel →
      parseElems fuel (Json.serializeElems l ++ (0x5D :: rest)) = some (l, rest)) ∧
    (∀ (l : JsonObj) (rest : List Nat), l ≠ .nil → jsizeF l ≤ fuel →
      parseFields fuel (Json.serializeFields l ++ (0x7D :: rest)) = some (l, rest)) := by
  intro fuel
  induction fuel with
  | zero =>
    refine ⟨?_, ?_, ?_⟩
    · intro m rest hsz _
      have := jsize_pos m
      omega
    · intro l rest hne hsz
      have := jsizeL_pos l
      omega
    · intro l rest hne hsz
      have := jsizeF_pos l
      omega
  | succ f ih =>
    obtain ⟨ihV, ihE, ihF⟩ := ih
    refine ⟨?_, ?_, ?_⟩
    · intro m rest hsz hstop
      cases m with
      | null => simp [Json.serialize, parseValue, skipWs, isWs]
      | bool bb => cases bb <;> simp [Json.serialize, parseValue, skipWs, isWs]
      | num i =>
        have hs : Json.serialize (.num i) = serializeInt i := rfl
        rw [hs]
        exact parseValue_num f i rest hstop
      | str s =>
        have harg : Json.serialize (.str s) ++ rest
            = 0x22 :: (escapeBytes s ++ (0x22 :: rest)) := by
          simp [Json.serialize]
        rw [harg]
        simp [parseValue, skipWs, isWs, parseStringBody_escape]
      | arr l =>
        cases l with
        | nil =>
          have harg : Json.serialize (.arr .nil) ++ rest = 0x5B :: (0x5D :: rest) := by
            simp [Json.serialize, Json.serializeElems]
          rw [harg]
          simp [parseValue, skipWs, isWs]
        | cons v l2 =>
          have hszL : jsizeL (.cons v l2) ≤ f := by
            simp only [jsize] at hsz
            omega
          have hkey := ihE (.cons v l2) rest (by simp) hszL
          obtain ⟨b, t, heq, hws, h5D⟩ := serialize_head v
          have hE : ∃ tE, Json.serializeElems (.cons v l2) = b :: tE := by
            cases l2 with
            | nil => exact ⟨t, by simp [Json.serializeElems, heq]⟩
            | cons w l3 =>
              exact ⟨t ++ (0x2C :: Json.serializeElems (.cons w l3)),
                by simp [Json.serializeElems, heq]⟩
          obtain ⟨tE, hE⟩ := hE
          have harg : Json.serialize (.arr (.cons v l2)) ++ rest
              = 0x5B :: (b :: (tE ++ (0x5D :: rest))) := by
            simp [Json.serialize, hE]
          rw [harg]
          rw [hE] at hkey
          simp only [List.cons_append] at hkey
          have hskip0 : skipWs (0x5B :: (b :: (tE ++ (0x5D :: rest))))
              = 0x5B :: (b :: (tE ++ (0x5D :: rest))) :=
            skipWs_not_ws _ _ (by decide)
          have hskip1 : skipWs (b :: (tE ++ (0x5D :: rest))) = b :: (tE ++ (0x5D :: rest)) :=
            skipWs_not_ws _ _ hws
          simp [parseValue, hskip0, hskip1, h5D, hkey]
      | obj l =>
        cases l with
        | nil =>
          have harg : Json.serialize (.obj .nil) ++ rest = 0x7B :: (0x7D :: rest) := by
            simp [Json.serialize, Json.serializeFields]
          rw [harg]
          simp [parseValue, skipWs, isWs]
        | cons k v l2 =>
          have hszF : jsizeF (.cons k v l2) ≤ f := by
            simp only [jsize] at hsz
            omega
          have hkey := ihF (.cons k v l2) rest (by simp) hszF
          have hF : ∃ tF, Json.serializeFields (.cons k v l2) = 0x22 :: tF := by
            cases l2 with
            | nil =>
              exact ⟨escapeBytes k ++ (0x22 :: 0x3A :: v.serialize),
                by simp [Json.serializeFields]⟩
            | cons k2 v2 l3 =>
              exact ⟨(escapeBytes k ++ (0x22 :: 0x3A :: v.serialize))
                  ++ (0x2C :: Json.serializeFields (.cons k2 v2 l3)),
                by simp [Json.serializeFields]⟩
          obtain ⟨tF, hF⟩ := hF
          have harg : Json.serialize (.obj (.cons k v l2)) ++ rest
              = 0x7B :: (0x22 :: (tF ++ (0x7D :: rest))) := by
            simp [Json.serialize, hF]
          rw [harg]
          rw [hF] at hkey
          simp only [List.cons_append] at hkey
          simp [parseValue, skipWs, isWs, hkey]
    · intro l rest hne hsz
      cases l with
      | nil => exact absurd rfl hne
      | cons v l2 =>
        have hszv : jsize v ≤ f := by
          have := jsizeL_pos l2
          simp only [jsizeL] at hsz
          omega
        cases l2 with
        | nil =>
          have hv := ihV v (0x5D :: rest) hszv (by simp [numStop, isDigit])
          have harg : Json.serializeElems (.cons v .nil) ++ (0x5D :: rest)
              = v.serialize ++ (0x5D :: rest) := by
            simp [Json.serializeElems]
          rw [harg]
          simp [parseElems, hv, skipWs, isWs]
        | cons w l3 =>
          have hszr : jsizeL (.cons w l3) ≤ f := by
            have := jsize_pos v
            simp only [jsizeL] at hsz ⊢
            omega
          have hv := ihV v (0x2C :: (Json.serializeElems (.cons w l3) ++ (0x5D :: rest))) hszv
            (by simp [numStop, isDigit])
          have hrec := ihE (.cons w l3) rest (by simp) hszr
          have harg : Json.serializeElems (.cons v (.cons w l3)) ++ (0x5D :: rest)
              = v.serialize ++ (0x2C :: (Json.serializeElems (.cons w l3) ++ (0x5D :: rest))) := by
            simp [Json.serializeElems]
          rw [harg]
          simp [parseElems, hv, skipWs, isWs, hrec]
    · intro l rest hne hsz
      cases l with
      | nil => exact absurd rfl hne
      | cons k v l2 =>
        have hszv : jsize v ≤ f := by
          have := jsizeF_pos l2
          simp only [jsizeF] at hsz
          omega
        cases l2 with
        | nil =>
          have hv := ihV v (0x7D :: rest) hszv (by simp [numStop, isDigit])
          have harg : Json.serializeFields (.cons k v .nil) ++ (0x7D :: rest)
              = 0x22 :: (escapeBytes k ++ (0x22 :: (0x3A :: (v.serialize
                  ++ (0x7D :: rest))))) := by
            simp [Json.serializeFields]
          rw [harg]
          simp [parseFields, skipWs, isWs, parseStringBody_escape, hv]
        | cons k2 v2 l3 =>
          have hszr : jsizeF (.cons k2 v2 l3) ≤ f := by
            have := jsize_pos v
            simp only [jsizeF] at hsz ⊢
            omega
          have hv := ihV v (0x2C :: (Json.serializeFields (.cons k2 v2 l3) ++ (0x7D :: rest)))
            hszv (by simp [numStop, isDigit])
          have hrec := ihF (.cons k2 v2 l3) rest (by simp) hszr
          have harg : Json.serializeFields (.cons k v (.cons k2 v2 l3)) ++ (0x7D :: rest)
              = 0x22 :: (escapeBytes k ++ (0x22 :: (0x3A :: (v.serialize
                  ++ (0x2C :: (Json.serializeFields (.cons k2 v2 l3) ++ (0x7D :: rest))))))) := by
            simp [Json.serializeFields]
          rw [harg]
          simp [parseFields, skipWs, isWs, parseStringBody_escape, hv, hrec]

/-- The full `serde_json` round trip of the model: parsing a serialized value
recovers it exactly. -/
theorem fromSlice_serialize (m : Json) : fromSlice m.serialize = some m := by
  have hfuel : jsize m ≤ m.serialize.length + 1 := le_trans (jsize_le_len m) (by omega)
  have h := (parse_rt (m.serialize.length + 1)).1 m [] hfuel rfl
  rw [List.append_nil] at h
  unfold fromSlice
  rw [h]
  rfl

/-! ## C1 and C9 — frame codec -/

/-- Encode/decode of the 4-byte native-order length prefix is the identity
below 2^32. -/
theorem u32_round (n : Nat) (h : n < 2 ^ 32) : u32OfNeList (u32ToNeBytes n) = n := by
  simp only [u32ToNeBytes, u32OfNeList, u32OfNeBytes]
  omega

/-- C1 (amended). For every JSON value whose serialization is shorter than
2^32 bytes, writing it with `write_message` and reading the written bytes
back with `read_message` succeeds and returns the same value.  (The `as u32`
cast in `write_message` truncates longer serializations, see the
counterexample.) -/
theorem frame_roundtrip (m : Json) (h : m.serialize.length < 2 ^ 32) :
    read_message (writtenBytes (write_message m)) = .ok m := by
  have hp : (2 : Nat) ^ 32 = 4294967296 := by norm_num
  have hmod : m.serialize.length % 4294967296 = m.serialize.length :=
    Nat.mod_eq_of_lt (hp ▸ h)
  have hw : writtenBytes (write_message m)
      = (m.serialize.length % 256) :: (m.serialize.length / 256 % 256)
        :: (m.serialize.length / 65536 % 256) :: (m.serialize.length / 16777216 % 256)
        :: m.serialize := by
    simp [write_message, writtenBytes, hmod, u32ToNeBytes]
  rw [hw]
  simp only [read_message]
  have hlen : u32OfNeBytes (m.serialize.length % 256) (m.serialize.length / 256 % 256)
      (m.serialize.length / 65536 % 256) (m.serialize.length / 16777216 % 256)
      = m.serialize.length := by
    simp only [u32OfNeBytes]
    omega
  rw [hlen, if_neg (lt_irrefl _), List.take_length, fromSlice_serialize]

/-- C1 witness: the inject command of the spec's end-to-end scenario
round-trips through the frame codec. -/
theorem frame_roundtrip_witness :
    read_message (writtenBytes (write_message (injectMsg sampleInject)))
      = .ok (injectMsg sampleInject) :=
  frame_roundtrip (injectMsg sampleInject) (by decide)

/-- C9 (amended). `write_message` emits exactly three writer effects, in
order: the 4-byte length prefix, the serialized body, and a flush; whenever
the body is shorter than 2^32 bytes the prefix value equals the exact byte
length of the body (otherwise the `as u32` cast truncates it mod 2^32). -/
theorem frame_layout (m : Json) (h : m.serialize.length < 2 ^ 32) :
    write_message m
      = [.write (u32ToNeBytes m.serialize.length), .write m.serialize, .flush] ∧
    (u32ToNeBytes m.serialize.length).length = 4 ∧
    u32OfNeList (u32ToNeBytes m.serialize.length) = m.serialize.length := by
  have hp : (2 : Nat) ^ 32 = 4294967296 := by norm_num
  have hmod : m.serialize.length % 4294967296 = m.serialize.length :=
    Nat.mod_eq_of_lt (hp ▸ h)
  exact ⟨by simp [write_message, hmod], by simp [u32ToNeBytes], u32_round _ h⟩

/-- C9 witness: the frame layout of the serialized `null` value. -/
theorem frame_layout_witness :
    write_message .null
      = [.write (u32ToNeBytes (Json.serialize .null).length),
         .write (Json.serialize .null), .flush] ∧
    u32OfNeList (u32ToNeBytes (Json.serialize .null).length)
      = (Json.serialize .null).length :=
  ⟨(frame_layout .null (by decide)).1, (frame_layout .null (by decide)).2.2⟩

/-- Serialized length of an array of `n + 1` nulls: five bytes per element
(four for `null`, one comma or bracket), save one. -/
theorem serializeElems_replicate (n : Nat) :
    (Json.serializeElems (jreplicate (n + 1) Json.null)).length = 5 * (n + 1) - 1 := by
  induction n with
  | zero => rfl
  | succ k ih =>
    have hstep : Json.serializeElems (jreplicate (k + 2) Json.null)
        = Json.serialize Json.null
          ++ (0x2C :: Json.serializeElems (jreplicate (k + 1) Json.null)) := rfl
    rw [hstep]
    simp only [Json.serialize, List.length_append, List.length_cons, List.length_nil]
    rw [ih]
    omega

/-- One generic unfolding step of the serializer on arrays. -/
theorem serialize_arr (l : JsonList) :
    Json.serialize (.arr l) = 0x5B :: (Json.serializeElems l ++ [0x5D]) := by
  simp only [Json.serialize]

/-- The serializer on `hugeJson`, unfolded one step (stated so that no
evaluation of the huge element list is ever needed). -/
theorem hugeJson_serialize : Json.serialize hugeJson
    = 0x5B :: (Json.serializeElems (jreplicate (2 ^ 32) Json.null) ++ [0x5D]) :=
  serialize_arr (jreplicate (2 ^ 32) Json.null)

/-- Serialized length of an array, via its element list. -/
theorem arr_serialize_len (l : JsonList) :
    (Json.serialize (.arr l)).length = (Json.serializeElems l).length + 2 := by
  rw [serialize_arr]
  simp

/-- The serialization of `hugeJson` is longer than 2^32 bytes. -/
theorem hugeJson_len : (Json.serialize hugeJson).length = 5 * 2 ^ 32 + 1 := by
  have h1 : (Json.serialize hugeJson).length
      = (Json.serializeElems (jreplicate (2 ^ 32) Json.null)).length + 2 :=
    arr_serialize_len (jreplicate (2 ^ 32) Json.null)
  have h2 : (2 : Nat) ^ 32 = 4294967295 + 1 := by norm_num
  have h3 := serializeElems_replicate 4294967295
  rw [h1, h2, h3]

/-- The truncated length prefix of the `hugeJson` frame carries the value 1. -/
theorem hugeJson_mod : (Json.serialize hugeJson).length % 4294967296 = 1 := by
  have hp : (2 : Nat) ^ 32 = 4294967296 := by norm_num
  rw [hugeJson_len, hp]

/-- The byte stream an encoded frame amounts to: length prefix, then body. -/
theorem writtenBytes_write_message (m : Json) :
    writtenBytes (write_message m)
      = u32ToNeBytes (m.serialize.length % 4294967296) ++ m.serialize := by
  simp [write_message, writtenBytes]

/-- Reading one frame off the truncated `hugeJson` stream: the prefix says
one byte, and the one-byte body `[` is not valid JSON. -/
theorem hugeJson_read : read_message (writtenBytes (write_message hugeJson))
    = .error .malformed := by
  have hw := writtenBytes_write_message hugeJson
  rw [hugeJson_mod] at hw
  have hb : u32ToNeBytes 1 = [1, 0, 0, 0] := by norm_num [u32ToNeBytes]
  rw [hb] at hw
  have hw2 : writtenBytes (write_message hugeJson)
      = 1 :: 0 :: 0 :: 0 :: Json.serialize hugeJson := by
    rw [hw]
    rfl
  rw [hw2]
  simp only [read_message]
  have h1 : u32OfNeBytes 1 0 0 0 = 1 := by norm_num [u32OfNeBytes]
  rw [h1]
  rw [if_neg (by rw [hugeJson_len]; norm_num)]
  have htake1 : ∀ (b : Nat) (Y : List Nat), (b :: Y).take 1 = [b] := by
    intro b Y
    simp
  have htake : (Json.serialize hugeJson).take 1 = [0x5B] := by
    rw [hugeJson_serialize]
    exact htake1 0x5B _
  rw [htake]
  have hparse : fromSlice [0x5B] = none := by decide
  rw [hparse]

/-- C1 counterexample: the frame round-trip fails as stated at `hugeJson`, a
value whose serialization exceeds 2^32 bytes — the `as u32` cast truncates
the length prefix, so the decoder reads a 1-byte body that is not valid
JSON. -/
theorem frame_roundtrip_cex :
    read_message (writtenBytes (write_message hugeJson)) = .error .malformed ∧
    read_message (writtenBytes (write_message hugeJson)) ≠ .ok hugeJson := by
  refine ⟨hugeJson_read, ?_⟩
  rw [hugeJson_read]
  simp

/-- The prefix value of an encoded frame, in general. -/
theorem frameLenVal_eq (m : Json) :
    frameLenVal m = u32OfNeList (u32ToNeBytes (m.serialize.length % 4294967296)) := by
  simp [frameLenVal, write_message]

/-- C9 counterexample: at `hugeJson` the emitted length prefix carries the
value 1, not the exact body length. -/
theorem frame_layout_cex : frameLenVal hugeJson ≠ (Json.serialize hugeJson).length := by
  have h := frameLenVal_eq hugeJson
  rw [hugeJson_mod] at h
  have hb : u32OfNeList (u32ToNeBytes 1) = 1 := by
    norm_num [u32ToNeBytes, u32OfNeList, u32OfNeBytes]
  rw [hb] at h
  rw [h, hugeJson_len]
  norm_num

/-! ## Evaluation checks of the model on concrete inputs -/

example : ascii "ab" = [97, 98] := rfl
example : ascii "tabs" = [0x74, 0x61, 0x62, 0x73] := by decide
example :
    Json.serialize (.obj (.cons (ascii "a") (.num 12) (.cons (ascii "b") (.str (ascii "x")) .nil)))
      = ascii "\x7b\"a\":12,\"b\":\"x\"\x7d" := by decide
example : Json.serialize (.num (-307)) = ascii "-307" := by decide
example : Json.serialize (.arr (.cons .null (.cons (.bool true) .nil))) = ascii "[null,true]" := by
  decide
example :
    fromSlice (ascii " \x7b\"a\" : [1, -2, \"x\\n\"]\x7d ")
      = some (.obj (.cons (ascii "a")
          (.arr (.cons (.num 1) (.cons (.num (-2)) (.cons (.str [0x78, 0x0A]) .nil)))) .nil)) := by
  decide
example : fromSlice (ascii "xyzzy") = none := by decide
example : fromSlice (ascii "[") = none := by decide
example : fromSlice (ascii "\"\\u00412\"") = some (.str [0x41, 0x32]) := by decide
example :
    fromSlice (Json.serialize (.obj (.cons (ascii "t") (.str (ascii "v")) .nil)))
      = some (.obj (.cons (ascii "t") (.str (ascii "v")) .nil)) := by decide
